import Mathlib

/-!
Verification of the Cifra Carmesim grid optimizer (src/src/main.cpp).

The program computes a maximum-weight selection of cells ("crystals") in an
L-row by C-column grid, subject to per-cell directional connection flags that
forbid simultaneous selection of connected neighbours.  It is a row-profile
dynamic program over bitmasks: `f linha conf conf_inicial` is the memoized
recursion, `Resolve` runs the anchor loop over all configurations of the
bottom row and then reconstructs the selected cells by replaying the memo
table.

This file gives a shallow embedding of that code.  C++ `int` values are
modelled by `Int` (brightness values, DP values) and `Nat` (bitmasks, sizes,
indices; all of these are nonnegative in every reachable state of the
program).  The memo table is semantically transparent: an entry is written at
most once, with exactly the value the pure recursion returns for that state,
so `f` is embedded as the pure recursion; the inductive predicate `Called`
captures which memo entries have been written (i.e. have `calculado = true`)
once the anchor loop of `Resolve` has run, which is what the reconstruction
loop relies on when it reads `memo_[(i + L) % L][conf][conf_inicial_maxima]`.
-/

namespace CifraCarmesim

/-- C++ helper `GET_BIT(number, bit) = (number >> bit) & 1`. -/
def GET_BIT (number bit : Nat) : Nat := (number >>> bit) % 2

/-- A crystal of the box: brightness (`-1` means the cell is empty) and the
4-bit connection mask (bit 0 = right, bit 1 = up, bit 2 = left, bit 3 = down). -/
structure Cristal where
  brilho : Int
  conexoes : Nat
deriving DecidableEq

/-- A DP answer: `valor` is the best cumulative value reachable from the state
(`-1` meaning dead/unreachable), `conf` the configuration used in the row
above that achieved it.  `calculado` is the memo flag of the C++ struct. -/
structure Resposta where
  calculado : Bool
  valor : Int
  conf : Nat
deriving DecidableEq

/-- The problem instance: dimensions and the grid contents (`caixa_`), as a
total function; cells never placed hold the default `⟨-1, 0⟩`. -/
structure Cifra where
  L : Nat
  C : Nat
  caixa : Nat → Nat → Cristal

/-- `num_possibilidades_ = 1 << C`: number of row configurations. -/
def numPossibilidades (cif : Cifra) : Nat := 2 ^ cif.C

/-- The connection mask built by `AdicionaCristal` from the four 0/1 flags
(right, up, left, down); a flag contributes its bit exactly when it equals 1. -/
def packConexoes (d c e b : Nat) : Nat :=
  (if d = 1 then 1 else 0) + 2 * (if c = 1 then 1 else 0) +
    4 * (if e = 1 then 1 else 0) + 8 * (if b = 1 then 1 else 0)

/-- `Cifra::AdicionaCristal`: store crystal `⟨v, pack d c e b⟩` at the
1-based position `(x, y)`, i.e. at 0-based `(x - 1, y - 1)`. -/
def AdicionaCristal (caixa : Nat → Nat → Cristal) (x y : Nat) (v : Int)
    (d c e b : Nat) : Nat → Nat → Cristal :=
  fun i j => if i = x - 1 ∧ j = y - 1 then ⟨v, packConexoes d c e b⟩ else caixa i j

/-- `Cifra::EhInternamenteConsistente`: a configuration is valid for a row iff
no selected column is an empty cell and no selected column whose cell has its
right-connection bit set has its right neighbour `(j + 1) % C` also selected. -/
def ehInternamenteConsistente (cif : Cifra) (linha conf : Nat) : Bool :=
  (List.range cif.C).all fun j =>
    !(GET_BIT conf j == 1 && (cif.caixa linha j).brilho == -1) &&
    !(GET_BIT conf j == 1 && GET_BIT conf ((j + 1) % cif.C) == 1 &&
      GET_BIT (cif.caixa linha j).conexoes 0 == 1)

/-- `Cifra::SaoCompativeis`: the lower-row configuration `conf_i` (for row
`linha`) and the upper-row configuration `conf_s` may coexist iff no column is
selected in both while the lower cell has its up-connection bit set. -/
def saoCompativeis (cif : Cifra) (linha conf_i conf_s : Nat) : Bool :=
  (List.range cif.C).all fun j =>
    !(GET_BIT conf_i j == 1 && GET_BIT conf_s j == 1 &&
      GET_BIT (cif.caixa linha j).conexoes 1 == 1)

/-- `valor_linha`: sum of the brightness of the cells selected by `conf` in
row `linha` (the loop over `j` in `Cifra::f`). -/
def valorLinha (cif : Cifra) (linha conf : Nat) : Int :=
  (List.range cif.C).foldl
    (fun acc j => if GET_BIT conf j == 1 then acc + (cif.caixa linha j).brilho else acc) 0

/-- One iteration of the candidate loop in the recursive case of `Cifra::f`:
skip `poss` if incompatible, skip if the recursive answer is dead (`-1`),
record `poss` when it strictly improves the current maximum. -/
def passo (vl : Int) (compat : Nat → Bool) (resp : Nat → Resposta)
    (maximo : Resposta) (poss : Nat) : Resposta :=
  if compat poss = false then maximo
  else if (resp poss).valor = -1 then maximo
  else if (resp poss).valor + vl > maximo.valor then ⟨true, (resp poss).valor + vl, poss⟩
  else maximo

/-- `Cifra::f`, the memoized dynamic program, embedded as the pure recursion
it computes: inconsistent rows are dead; row 0 is terminal and must be
compatible with the anchor configuration `conf_inicial`; other rows take the
best compatible configuration of the row above. -/
def f (cif : Cifra) : Nat → Nat → Nat → Resposta
  | 0, conf, conf_inicial =>
    if ehInternamenteConsistente cif 0 conf = false then ⟨true, -1, 0⟩
    else if saoCompativeis cif 0 conf conf_inicial = false then ⟨true, -1, 0⟩
    else ⟨true, valorLinha cif 0 conf, conf_inicial⟩
  | linha + 1, conf, conf_inicial =>
    if ehInternamenteConsistente cif (linha + 1) conf = false then ⟨true, -1, 0⟩
    else
      (List.range (numPossibilidades cif)).foldl
        (passo (valorLinha cif (linha + 1) conf)
          (fun poss => saoCompativeis cif (linha + 1) conf poss)
          (fun poss => f cif linha poss conf_inicial))
        ⟨true, -1, 0⟩

/-- One iteration of the anchor loop of `Cifra::Resolve`: the anchor index is
updated exactly when the candidate's value strictly beats the current best. -/
def passoAncora (fL : Nat → Resposta) (acc : Int × Resposta) (i : Nat) :
    Int × Resposta :=
  if (fL i).valor > acc.2.valor then ((i : Int), fL i) else acc

/-- The anchor loop of `Cifra::Resolve`: try every bottom-row configuration
`i`, anchored to itself, starting from `conf_inicial_maxima = -1` and the
invalid answer `⟨true, -1, 0⟩`.  First component is `conf_inicial_maxima`,
second is `maximo`. -/
def anchorLoop (cif : Cifra) : Int × Resposta :=
  (List.range (numPossibilidades cif)).foldl
    (passoAncora fun i => f cif (cif.L - 1) i i) (-1, ⟨true, -1, 0⟩)

/-- The sequence of configurations visited by the reconstruction loop of
`Cifra::Resolve`: `chainConf cif A k` is the value of the loop variable `conf`
when the iteration for row `i = L - 1 - k` begins (`A` is
`conf_inicial_maxima`).  The step reads the memo entry
`memo_[(i + L) % L][conf][A].conf`, whose value is the pure `f` at that state
(the reconstruction only reads entries that have been computed, see `Called`). -/
def chainConf (cif : Cifra) (A : Nat) : Nat → Nat
  | 0 => A
  | k + 1 => (f cif ((cif.L - 1 - k + cif.L) % cif.L) (chainConf cif A k) A).conf

/-- The cells pushed into `cristais_solucao_` by one iteration of the
reconstruction loop: columns `j = C - 1` down to `0` with bit `j` of `conf`
set, as 1-based pairs `(i + 1, j + 1)`. -/
def rowCells (conf i C : Nat) : List (Nat × Nat) :=
  ((List.range C).reverse).filterMap fun j =>
    if GET_BIT conf j == 1 then some (i + 1, j + 1) else none

/-- The inner loop of the reconstruction in `Cifra::Resolve`, acting on the
pair (`num_cristais_usados_`, `cristais_solucao_`): for `j` from `C - 1` down
to `0`, when bit `j` of `conf` is set increment the counter and push the
1-based cell. -/
def reconRow (conf i C : Nat) (st : Nat × List (Nat × Nat)) :
    Nat × List (Nat × Nat) :=
  ((List.range C).reverse).foldl
    (fun st j =>
      if GET_BIT conf j == 1 then (st.1 + 1, st.2 ++ [(i + 1, j + 1)]) else st)
    st

/-- The full reconstruction loop of `Cifra::Resolve`: rows `i = L - 1` down to
`0`, emitting the cells of `chainConf` at each row. -/
def recon (cif : Cifra) (A : Nat) (st : Nat × List (Nat × Nat)) :
    Nat × List (Nat × Nat) :=
  (List.range cif.L).foldl
    (fun st k => reconRow (chainConf cif A k) (cif.L - 1 - k) cif.C st) st

/-- The list of cells the reconstruction appends to `cristais_solucao_`, row
`L - 1` first, each row listed column `C - 1` down to `0`. -/
def solucaoList (cif : Cifra) (A : Nat) : List (Nat × Nat) :=
  ((List.range cif.L).map fun k =>
    rowCells (chainConf cif A k) (cif.L - 1 - k) cif.C).flatten

/-- The mutable members of a `Cifra` object that `Resolve` touches. -/
structure CifraState where
  cif : Cifra
  num_cristais_usados : Nat
  max_valor_caixa : Int
  cristais_solucao : List (Nat × Nat)

/-- A freshly constructed `Cifra` object holding grid `cif`:
`num_cristais_usados_ = 0`, `max_valor_caixa_ = 0`, empty solution list. -/
def initState (cif : Cifra) : CifraState := ⟨cif, 0, 0, []⟩

/-- `Cifra::Resolve` as a transformer of the object state: run the anchor
loop, store `maximo.valor` into `max_valor_caixa_`, then run the
reconstruction loop, which increments `num_cristais_usados_` and appends to
`cristais_solucao_` (neither is reset).  The C++ indexes the memo table with
the `int` `conf_inicial_maxima`; `Int.toNat` models the in-range case, which
`Resolve` always is in (the anchor loop always finds a value `≥ 0`). -/
def Resolve (s : CifraState) : CifraState :=
  let A := (anchorLoop s.cif).1.toNat
  let st := recon s.cif A (s.num_cristais_usados, s.cristais_solucao)
  ⟨s.cif, st.1, (anchorLoop s.cif).2.valor, st.2⟩

/-- `Cifra::GetValoresSolucao`: the pair (number of crystals used, total
brightness of the solution). -/
def GetValoresSolucao (s : CifraState) : Nat × Int :=
  (s.num_cristais_usados, s.max_valor_caixa)

/-- The set of memo entries written (i.e. with `calculado = true`) after the
anchor loop of `Resolve` has run: every top-level state `(L - 1, i, i)` is
called directly, and whenever a called state passes the consistency check and
is not the base row, its candidate loop calls every compatible state of the
row above.  (A state's entry is written when `f` first returns for it, always
before any later read.) -/
inductive Called (cif : Cifra) : Nat → Nat → Nat → Prop where
  | top : ∀ i, i < numPossibilidades cif → Called cif (cif.L - 1) i i
  | step : ∀ linha conf a poss, Called cif (linha + 1) conf a →
      ehInternamenteConsistente cif (linha + 1) conf = true →
      poss < numPossibilidades cif →
      saoCompativeis cif (linha + 1) conf poss = true →
      Called cif linha poss a

/-- Sum of `g` over the rows `m, m + 1, ..., L - 1` of the reconstruction. -/
def tailSum (g : Nat → Int) (L m : Nat) : Int :=
  (((List.range L).drop m).map g).sum

/-- The grid built by replaying a list of `AdicionaCristal` calls
`(x, y, v, d, c, e, b)` (as `main` does with the `N` input records). -/
def applyAdds (caixa : Nat → Nat → Cristal) :
    List (Nat × Nat × Int × Nat × Nat × Nat × Nat) → (Nat → Nat → Cristal)
  | [] => caixa
  | t :: rest =>
    applyAdds (AdicionaCristal caixa t.1 t.2.1 t.2.2.1 t.2.2.2.1 t.2.2.2.2.1
      t.2.2.2.2.2.1 t.2.2.2.2.2.2) rest

/-- The grid of a freshly constructed `Cifra`: every cell default `⟨-1, 0⟩`. -/
def emptyCaixa : Nat → Nat → Cristal := fun _ _ => ⟨-1, 0⟩

/-- Two grids agree on everything the solver ever reads: brightness and the
right-connection (bit 0) and up-connection (bit 1) of every cell. -/
def caixaEquiv (k1 k2 : Nat → Nat → Cristal) : Prop :=
  ∀ i j, (k1 i j).brilho = (k2 i j).brilho ∧
    GET_BIT (k1 i j).conexoes 0 = GET_BIT (k2 i j).conexoes 0 ∧
    GET_BIT (k1 i j).conexoes 1 = GET_BIT (k2 i j).conexoes 1

/-- The grid obtained by calling `AdicionaCristal` at the 1-based position
`(x0 + 1, y0 + 1)` with brightness 0 and all four connection flags 0. -/
def addCristalZero (cif : Cifra) (x0 y0 : Nat) : Cifra :=
  ⟨cif.L, cif.C, AdicionaCristal cif.caixa (x0 + 1) (y0 + 1) 0 0 0 0 0⟩

/-- Concrete 2x2 grid: crystal of value 3 at (1,1) connected right and down,
crystals of value 1 elsewhere.  Used by witnesses. -/
def cifExemplo : Cifra :=
  ⟨2, 2, fun i j => if i = 0 ∧ j = 0 then ⟨3, packConexoes 1 0 0 1⟩ else ⟨1, 0⟩⟩

/-- Concrete 2x2 grid with `N = 0` crystals placed. -/
def cifVazia : Cifra := ⟨2, 2, fun _ _ => ⟨-1, 0⟩⟩

/-- Concrete 1x1 grid with a single crystal of value 5 at (1,1). -/
def cifUmCristal : Cifra :=
  ⟨1, 1, fun i j => if i = 0 ∧ j = 0 then ⟨5, 0⟩ else ⟨-1, 0⟩⟩

/-- Concrete 2x1 grid with a single crystal of value 0 in row 0: both
configurations of row 0 tie at value 0 in the transition from row 1. -/
def cifEmpate : Cifra :=
  ⟨2, 1, fun i j => if i = 0 ∧ j = 0 then ⟨0, 0⟩ else ⟨-1, 0⟩⟩

/-- Concrete 2x2 grid with one crystal of value 4 at 0-based (0, 0); the
0-based position (1, 1) holds no crystal. -/
def cifMono : Cifra :=
  ⟨2, 2, fun i j => if i = 0 ∧ j = 0 then ⟨4, 0⟩ else ⟨-1, 0⟩⟩

/-- Two crystal-addition lists that agree on position, value, `d` and `c`. -/
def addsA : List (Nat × Nat × Int × Nat × Nat × Nat × Nat) :=
  [(1, 1, 5, 1, 0, 0, 0), (2, 2, 3, 0, 1, 1, 1)]

/-- Same as `addsA` except in the `e` (left) and `b` (down) arguments. -/
def addsB : List (Nat × Nat × Int × Nat × Nat × Nat × Nat) :=
  [(1, 1, 5, 1, 0, 1, 1), (2, 2, 3, 0, 1, 0, 0)]

/-! ### Behaviour of the candidate loop of `f` -/

theorem passo_cases (vl : Int) (compat : Nat → Bool) (resp : Nat → Resposta)
    (m : Resposta) (x : Nat) :
    (passo vl compat resp m x = m ∧
      (compat x = true → (resp x).valor ≠ -1 → (resp x).valor + vl ≤ m.valor)) ∨
    (compat x = true ∧ (resp x).valor ≠ -1 ∧ m.valor < (resp x).valor + vl ∧
      passo vl compat resp m x = ⟨true, (resp x).valor + vl, x⟩) := by
  unfold passo
  split_ifs with h1 h2 h3
  · exact Or.inl ⟨rfl, fun hc _ => by simp [hc] at h1⟩
  · exact Or.inl ⟨rfl, fun _ hne => absurd h2 hne⟩
  · have hc : compat x = true := by revert h1; cases compat x <;> simp
    exact Or.inr ⟨hc, h2, h3, rfl⟩
  · exact Or.inl ⟨rfl, fun _ _ => by omega⟩

theorem passo_valor_mono (vl : Int) (compat : Nat → Bool) (resp : Nat → Resposta)
    (m : Resposta) (x : Nat) : m.valor ≤ (passo vl compat resp m x).valor := by
  rcases passo_cases vl compat resp m x with ⟨heq, _⟩ | ⟨_, _, hlt, heq⟩
  · rw [heq]
  · rw [heq]; exact le_of_lt hlt

theorem foldl_passo_mono (vl : Int) (compat : Nat → Bool) (resp : Nat → Resposta)
    (l : List Nat) (init : Resposta) :
    init.valor ≤ (l.foldl (passo vl compat resp) init).valor := by
  induction l generalizing init with
  | nil => simp
  | cons x xs ih =>
    simp only [List.foldl_cons]
    exact le_trans (passo_valor_mono vl compat resp init x)
      (ih (passo vl compat resp init x))

theorem foldl_passo_ge (vl : Int) (compat : Nat → Bool) (resp : Nat → Resposta)
    (l : List Nat) (init : Resposta) (p : Nat) (hp : p ∈ l)
    (hc : compat p = true) (hv : (resp p).valor ≠ -1) :
    (resp p).valor + vl ≤ (l.foldl (passo vl compat resp) init).valor := by
  induction l generalizing init with
  | nil => cases hp
  | cons x xs ih =>
    simp only [List.foldl_cons]
    rcases List.mem_cons.mp hp with rfl | hmem
    · refine le_trans ?_ (foldl_passo_mono vl compat resp xs (passo vl compat resp init p))
      rcases passo_cases vl compat resp init p with ⟨heq, himp⟩ | ⟨_, _, _, heq⟩
      · rw [heq]; exact himp hc hv
      · rw [heq]
    · exact ih (passo vl compat resp init x) hmem

theorem foldl_passo_attains (vl : Int) (compat : Nat → Bool) (resp : Nat → Resposta)
    (l : List Nat) (hl : l.Pairwise (· < ·)) (init : Resposta) :
    l.foldl (passo vl compat resp) init = init ∨
    ∃ p, p ∈ l ∧ compat p = true ∧ (resp p).valor ≠ -1 ∧
      l.foldl (passo vl compat resp) init = ⟨true, (resp p).valor + vl, p⟩ ∧
      init.valor < (resp p).valor + vl ∧
      ∀ q, q ∈ l → compat q = true → (resp q).valor ≠ -1 →
        (resp q).valor + vl = (resp p).valor + vl → p ≤ q := by
  induction l generalizing init with
  | nil => exact Or.inl rfl
  | cons x xs ih =>
    have hxlt : ∀ q ∈ xs, x < q := (List.pairwise_cons.mp hl).1
    have hlxs : xs.Pairwise (· < ·) := (List.pairwise_cons.mp hl).2
    simp only [List.foldl_cons]
    rcases passo_cases vl compat resp init x with ⟨heq, himp⟩ | ⟨hcx, hvx, hltx, heq⟩
    · rw [heq]
      rcases ih hlxs init with hres | ⟨p, hpmem, hcp, hvp, hres, hinit, hmin⟩
      · exact Or.inl hres
      · refine Or.inr ⟨p, List.mem_cons_of_mem x hpmem, hcp, hvp, hres, hinit, ?_⟩
        intro q hq hcq hvq hval
        rcases List.mem_cons.mp hq with rfl | hqmem
        · exact absurd hval (by have := himp hcq hvq; omega)
        · exact hmin q hqmem hcq hvq hval
    · rw [heq]
      rcases ih hlxs ⟨true, (resp x).valor + vl, x⟩ with hres | ⟨p, hpmem, hcp, hvp, hres, hinit, hmin⟩
      · refine Or.inr ⟨x, List.mem_cons_self x xs, hcx, hvx, hres, hltx, ?_⟩
        intro q hq _ _ _
        rcases List.mem_cons.mp hq with rfl | hqmem
        · exact le_refl q
        · exact le_of_lt (hxlt q hqmem)
      · simp only at hinit
        refine Or.inr ⟨p, List.mem_cons_of_mem x hpmem, hcp, hvp, hres, by omega, ?_⟩
        intro q hq hcq hvq hval
        rcases List.mem_cons.mp hq with rfl | hqmem
        · exact absurd hval (by omega)
        · exact hmin q hqmem hcq hvq hval

/-! ### Behaviour of the anchor loop of `Resolve` -/

theorem passoAncora_cases (fL : Nat → Resposta) (acc : Int × Resposta) (i : Nat) :
    (passoAncora fL acc i = acc ∧ (fL i).valor ≤ acc.2.valor) ∨
    (acc.2.valor < (fL i).valor ∧ passoAncora fL acc i = ((i : Int), fL i)) := by
  unfold passoAncora
  split_ifs with h
  · exact Or.inr ⟨h, rfl⟩
  · exact Or.inl ⟨rfl, by omega⟩

theorem passoAncora_valor_mono (fL : Nat → Resposta) (acc : Int × Resposta) (i : Nat) :
    acc.2.valor ≤ (passoAncora fL acc i).2.valor := by
  rcases passoAncora_cases fL acc i with ⟨heq, _⟩ | ⟨hlt, heq⟩
  · rw [heq]
  · rw [heq]; exact le_of_lt hlt

theorem foldl_ancora_mono (fL : Nat → Resposta) (l : List Nat) (acc : Int × Resposta) :
    acc.2.valor ≤ (l.foldl (passoAncora fL) acc).2.valor := by
  induction l generalizing acc with
  | nil => simp
  | cons x xs ih =>
    simp only [List.foldl_cons]
    exact le_trans (passoAncora_valor_mono fL acc x) (ih (passoAncora fL acc x))

theorem foldl_ancora_ge (fL : Nat → Resposta) (l : List Nat) (acc : Int × Resposta)
    (p : Nat) (hp : p ∈ l) :
    (fL p).valor ≤ (l.foldl (passoAncora fL) acc).2.valor := by
  induction l generalizing acc with
  | nil => cases hp
  | cons x xs ih =>
    simp only [List.foldl_cons]
    rcases List.mem_cons.mp hp with rfl | hmem
    · refine le_trans ?_ (foldl_ancora_mono fL xs (passoAncora fL acc p))
      rcases passoAncora_cases fL acc p with ⟨heq, hle⟩ | ⟨_, heq⟩
      · rw [heq]; exact hle
      · rw [heq]
    · exact ih (passoAncora fL acc x) hmem

theorem foldl_ancora_attains (fL : Nat → Resposta) (l : List Nat) (acc : Int × Resposta) :
    l.foldl (passoAncora fL) acc = acc ∨
    ∃ p, p ∈ l ∧ l.foldl (passoAncora fL) acc = ((p : Int), fL p) ∧
      acc.2.valor < (fL p).valor := by
  induction l generalizing acc with
  | nil => exact Or.inl rfl
  | cons x xs ih =>
    simp only [List.foldl_cons]
    rcases passoAncora_cases fL acc x with ⟨heq, _⟩ | ⟨hlt, heq⟩
    · rw [heq]
      rcases ih acc with hres | ⟨p, hpmem, hres, hbig⟩
      · exact Or.inl hres
      · exact Or.inr ⟨p, List.mem_cons_of_mem x hpmem, hres, hbig⟩
    · rw [heq]
      rcases ih ((x : Int), fL x) with hres | ⟨p, hpmem, hres, hbig⟩
      · exact Or.inr ⟨x, List.mem_cons_self x xs, hres, hlt⟩
      · simp only at hbig
        exact Or.inr ⟨p, List.mem_cons_of_mem x hpmem, hres, by omega⟩

/-! ### Basic facts about `f` -/

theorem numPossibilidades_pos (cif : Cifra) : 0 < numPossibilidades cif :=
  Nat.pos_pow_of_pos cif.C (by norm_num)

theorem f_dead_of_not_consistente (cif : Cifra) (linha conf a : Nat)
    (h : ehInternamenteConsistente cif linha conf = false) :
    f cif linha conf a = ⟨true, -1, 0⟩ := by
  cases linha <;> simp [f, h]

theorem consistente_of_f_ne (cif : Cifra) (linha conf a : Nat)
    (h : (f cif linha conf a).valor ≠ -1) :
    ehInternamenteConsistente cif linha conf = true := by
  by_contra hc
  have hc' : ehInternamenteConsistente cif linha conf = false := by
    revert hc; cases ehInternamenteConsistente cif linha conf <;> simp
  rw [f_dead_of_not_consistente cif linha conf a hc'] at h
  exact h rfl

theorem f_zero_spec (cif : Cifra) (conf a : Nat)
    (h : (f cif 0 conf a).valor ≠ -1) :
    ehInternamenteConsistente cif 0 conf = true ∧
    saoCompativeis cif 0 conf a = true ∧
    f cif 0 conf a = ⟨true, valorLinha cif 0 conf, a⟩ := by
  have hc := consistente_of_f_ne cif 0 conf a h
  have hs : saoCompativeis cif 0 conf a = true := by
    by_contra hs
    have hs' : saoCompativeis cif 0 conf a = false := by
      revert hs; cases saoCompativeis cif 0 conf a <;> simp
    simp [f, hc, hs'] at h
  exact ⟨hc, hs, by simp [f, hc, hs]⟩

theorem f_zero_eq (cif : Cifra) (conf a : Nat)
    (hc : ehInternamenteConsistente cif 0 conf = true)
    (hs : saoCompativeis cif 0 conf a = true) :
    f cif 0 conf a = ⟨true, valorLinha cif 0 conf, a⟩ := by
  simp [f, hc, hs]

theorem f_succ_eq (cif : Cifra) (linha conf a : Nat)
    (hc : ehInternamenteConsistente cif (linha + 1) conf = true) :
    f cif (linha + 1) conf a =
      (List.range (numPossibilidades cif)).foldl
        (passo (valorLinha cif (linha + 1) conf)
          (fun poss => saoCompativeis cif (linha + 1) conf poss)
          (fun poss => f cif linha poss a))
        ⟨true, -1, 0⟩ := by
  simp [f, hc]

theorem f_succ_attains (cif : Cifra) (linha conf a : Nat)
    (h : (f cif (linha + 1) conf a).valor ≠ -1) :
    ∃ p, p < numPossibilidades cif ∧
      saoCompativeis cif (linha + 1) conf p = true ∧
      (f cif linha p a).valor ≠ -1 ∧
      f cif (linha + 1) conf a =
        ⟨true, (f cif linha p a).valor + valorLinha cif (linha + 1) conf, p⟩ ∧
      (-1 : Int) < (f cif linha p a).valor + valorLinha cif (linha + 1) conf ∧
      ∀ q, q < numPossibilidades cif → saoCompativeis cif (linha + 1) conf q = true →
        (f cif linha q a).valor ≠ -1 →
        (f cif linha q a).valor + valorLinha cif (linha + 1) conf =
          (f cif linha p a).valor + valorLinha cif (linha + 1) conf →
        p ≤ q := by
  have hc := consistente_of_f_ne cif (linha + 1) conf a h
  rw [f_succ_eq cif linha conf a hc] at h ⊢
  rcases foldl_passo_attains (valorLinha cif (linha + 1) conf)
      (fun poss => saoCompativeis cif (linha + 1) conf poss)
      (fun poss => f cif linha poss a)
      (List.range (numPossibilidades cif)) (List.pairwise_lt_range _)
      ⟨true, -1, 0⟩ with hres | ⟨p, hpmem, hcp, hvp, hres, hinit, hmin⟩
  · rw [hres] at h; exact absurd rfl h
  · refine ⟨p, List.mem_range.mp hpmem, hcp, hvp, hres, hinit, ?_⟩
    intro q hq hcq hvq hval
    exact hmin q (List.mem_range.mpr hq) hcq hvq hval

theorem f_succ_ge (cif : Cifra) (linha conf a : Nat)
    (hc : ehInternamenteConsistente cif (linha + 1) conf = true)
    (p : Nat) (hp : p < numPossibilidades cif)
    (hs : saoCompativeis cif (linha + 1) conf p = true)
    (hv : (f cif linha p a).valor ≠ -1) :
    (f cif linha p a).valor + valorLinha cif (linha + 1) conf ≤
      (f cif (linha + 1) conf a).valor := by
  rw [f_succ_eq cif linha conf a hc]
  exact foldl_passo_ge _ _ _ _ _ p (List.mem_range.mpr hp) hs hv

theorem f_succ_dead_or_nonneg (cif : Cifra) (linha conf a : Nat) :
    (f cif (linha + 1) conf a).valor = -1 ∨ 0 ≤ (f cif (linha + 1) conf a).valor := by
  by_cases hc : ehInternamenteConsistente cif (linha + 1) conf = true
  · rw [f_succ_eq cif linha conf a hc]
    rcases foldl_passo_attains (valorLinha cif (linha + 1) conf)
        (fun poss => saoCompativeis cif (linha + 1) conf poss)
        (fun poss => f cif linha poss a)
        (List.range (numPossibilidades cif)) (List.pairwise_lt_range _)
        ⟨true, -1, 0⟩ with hres | ⟨p, _, _, _, hres, hinit, _⟩
    · rw [hres]; exact Or.inl rfl
    · rw [hres]; right; simp only at hinit ⊢; omega
  · have hc' : ehInternamenteConsistente cif (linha + 1) conf = false := by
      revert hc; cases ehInternamenteConsistente cif (linha + 1) conf <;> simp
    rw [f_dead_of_not_consistente cif (linha + 1) conf a hc']
    exact Or.inl rfl

/-! ### The all-zero configuration is always feasible -/

theorem GET_BIT_zero (j : Nat) : GET_BIT 0 j = 0 := by
  simp [GET_BIT]

theorem foldl_fixed_of_id {α β : Type} (l : List β) (init : α) :
    l.foldl (fun acc _ => acc) init = init := by
  induction l generalizing init with
  | nil => rfl
  | cons x xs ih => simp only [List.foldl_cons]; exact ih init

theorem consistente_zero (cif : Cifra) (linha : Nat) :
    ehInternamenteConsistente cif linha 0 = true := by
  simp [ehInternamenteConsistente, GET_BIT_zero]

theorem sao_zero_left (cif : Cifra) (linha s : Nat) :
    saoCompativeis cif linha 0 s = true := by
  simp [saoCompativeis, GET_BIT_zero]

theorem sao_zero_right (cif : Cifra) (linha i : Nat) :
    saoCompativeis cif linha i 0 = true := by
  simp [saoCompativeis, GET_BIT_zero]

theorem valorLinha_zero (cif : Cifra) (linha : Nat) :
    valorLinha cif linha 0 = 0 := by
  have : ∀ l : List Nat, ∀ init : Int,
      l.foldl (fun acc j =>
        if GET_BIT 0 j == 1 then acc + (cif.caixa linha j).brilho else acc) init = init := by
    intro l
    induction l with
    | nil => intro init; rfl
    | cons x xs ih => intro init; simp [GET_BIT_zero, ih]
  exact this (List.range cif.C) 0

theorem f_zeroconf_nonneg (cif : Cifra) : ∀ linha a, 0 ≤ (f cif linha 0 a).valor := by
  intro linha
  induction linha with
  | zero =>
    intro a
    rw [f_zero_eq cif 0 a (consistente_zero cif 0) (sao_zero_left cif 0 a)]
    simp [valorLinha_zero]
  | succ n ih =>
    intro a
    have hge := f_succ_ge cif n 0 a (consistente_zero cif (n + 1)) 0
      (numPossibilidades_pos cif) (sao_zero_left cif (n + 1) 0)
      (by have := ih a; omega)
    rw [valorLinha_zero] at hge
    have := ih a
    omega

/-! ### The anchor loop always finds a nonnegative maximum -/

/-- `conf_inicial_maxima` as used to index the memo table after the anchor
loop (always nonnegative, see `anchorLoop_spec`). -/
def confInicialMaxima (cif : Cifra) : Nat := (anchorLoop cif).1.toNat

/-- The value stored into `max_valor_caixa_` by `Resolve`. -/
def maxValorCaixa (cif : Cifra) : Int := (anchorLoop cif).2.valor

theorem anchorLoop_spec (cif : Cifra) :
    ∃ p : Nat, p < numPossibilidades cif ∧
      anchorLoop cif = ((p : Int), f cif (cif.L - 1) p p) ∧
      0 ≤ (f cif (cif.L - 1) p p).valor := by
  have h0 : 0 ≤ (f cif (cif.L - 1) 0 0).valor := f_zeroconf_nonneg cif _ 0
  have hge : (f cif (cif.L - 1) 0 0).valor ≤ (anchorLoop cif).2.valor :=
    foldl_ancora_ge _ _ _ 0 (List.mem_range.mpr (numPossibilidades_pos cif))
  rcases foldl_ancora_attains (fun i => f cif (cif.L - 1) i i)
      (List.range (numPossibilidades cif)) (-1, ⟨true, -1, 0⟩)
    with hres | ⟨p, hpmem, hres, _⟩
  · exfalso
    have hbad : (anchorLoop cif).2.valor = -1 := by unfold anchorLoop; rw [hres]
    omega
  · have heq : anchorLoop cif = ((p : Int), f cif (cif.L - 1) p p) := by
      unfold anchorLoop; exact hres
    refine ⟨p, List.mem_range.mp hpmem, heq, ?_⟩
    rw [heq] at hge
    exact le_trans h0 hge

theorem confInicialMaxima_lt (cif : Cifra) :
    confInicialMaxima cif < numPossibilidades cif := by
  rcases anchorLoop_spec cif with ⟨p, hp, heq, _⟩
  unfold confInicialMaxima
  rw [heq]
  simpa using hp

theorem maxValorCaixa_eq (cif : Cifra) :
    maxValorCaixa cif =
      (f cif (cif.L - 1) (confInicialMaxima cif) (confInicialMaxima cif)).valor := by
  rcases anchorLoop_spec cif with ⟨p, _, heq, _⟩
  unfold maxValorCaixa confInicialMaxima
  rw [heq]
  simp

theorem maxValorCaixa_nonneg (cif : Cifra) : 0 ≤ maxValorCaixa cif := by
  rcases anchorLoop_spec cif with ⟨p, _, heq, hpos⟩
  unfold maxValorCaixa
  rw [heq]
  exact hpos

/-! ### The reconstruction chain -/

theorem chain_succ_eq (cif : Cifra) (A : Nat) (h0 : 0 < cif.L) (k : Nat) :
    chainConf cif A (k + 1) =
      (f cif (cif.L - 1 - k) (chainConf cif A k) A).conf := by
  show (f cif ((cif.L - 1 - k + cif.L) % cif.L) (chainConf cif A k) A).conf = _
  rw [Nat.add_mod_right, Nat.mod_eq_of_lt (by omega)]

theorem chain_step (cif : Cifra) (h0 : 0 < cif.L) (k : Nat) (hk : k + 1 < cif.L)
    (hv : (f cif (cif.L - 1 - k)
      (chainConf cif (confInicialMaxima cif) k) (confInicialMaxima cif)).valor ≠ -1) :
    saoCompativeis cif (cif.L - 1 - k) (chainConf cif (confInicialMaxima cif) k)
        (chainConf cif (confInicialMaxima cif) (k + 1)) = true ∧
    (f cif (cif.L - 1 - (k + 1)) (chainConf cif (confInicialMaxima cif) (k + 1))
        (confInicialMaxima cif)).valor ≠ -1 ∧
    chainConf cif (confInicialMaxima cif) (k + 1) < numPossibilidades cif ∧
    (f cif (cif.L - 1 - k) (chainConf cif (confInicialMaxima cif) k)
        (confInicialMaxima cif)).valor =
      (f cif (cif.L - 1 - (k + 1)) (chainConf cif (confInicialMaxima cif) (k + 1))
          (confInicialMaxima cif)).valor +
        valorLinha cif (cif.L - 1 - k) (chainConf cif (confInicialMaxima cif) k) := by
  obtain ⟨m, hm⟩ : ∃ m, cif.L - 1 - k = m + 1 := ⟨cif.L - 2 - k, by omega⟩
  have hm2 : cif.L - 1 - (k + 1) = m := by omega
  have hchain : chainConf cif (confInicialMaxima cif) (k + 1) =
      (f cif (cif.L - 1 - k) (chainConf cif (confInicialMaxima cif) k)
        (confInicialMaxima cif)).conf :=
    chain_succ_eq cif (confInicialMaxima cif) h0 k
  rw [hm] at hv hchain ⊢
  rw [hm2]
  rcases f_succ_attains cif m (chainConf cif (confInicialMaxima cif) k)
      (confInicialMaxima cif) hv with ⟨p, hp, hsao, hvp, heq, _, _⟩
  have hcp : chainConf cif (confInicialMaxima cif) (k + 1) = p := by
    rw [hchain, heq]
  rw [hcp, heq]
  exact ⟨hsao, hvp, hp, rfl⟩

theorem chain_inv (cif : Cifra) (h0 : 0 < cif.L) :
    ∀ k, k < cif.L →
      (f cif (cif.L - 1 - k) (chainConf cif (confInicialMaxima cif) k)
        (confInicialMaxima cif)).valor ≠ -1 ∧
      chainConf cif (confInicialMaxima cif) k < numPossibilidades cif := by
  intro k
  induction k with
  | zero =>
    intro _
    constructor
    · show (f cif (cif.L - 1 - 0) (confInicialMaxima cif) (confInicialMaxima cif)).valor ≠ -1
      have := maxValorCaixa_nonneg cif
      rw [maxValorCaixa_eq cif] at this
      simp only [Nat.sub_zero]
      omega
    · exact confInicialMaxima_lt cif
  | succ k ih =>
    intro hk
    have hprev := ih (by omega)
    have hstep := chain_step cif h0 k hk hprev.1
    exact ⟨hstep.2.1, hstep.2.2.1⟩

theorem chain_called (cif : Cifra) (h0 : 0 < cif.L) :
    ∀ k, k < cif.L →
      Called cif (cif.L - 1 - k) (chainConf cif (confInicialMaxima cif) k)
        (confInicialMaxima cif) := by
  intro k
  induction k with
  | zero =>
    intro _
    show Called cif (cif.L - 1 - 0) (confInicialMaxima cif) (confInicialMaxima cif)
    simp only [Nat.sub_zero]
    exact Called.top (confInicialMaxima cif) (confInicialMaxima_lt cif)
  | succ k ih =>
    intro hk
    have hprev := ih (by omega)
    have hinv := chain_inv cif h0 k (by omega)
    have hstep := chain_step cif h0 k hk hinv.1
    obtain ⟨m, hm⟩ : ∃ m, cif.L - 1 - k = m + 1 := ⟨cif.L - 2 - k, by omega⟩
    have hm2 : cif.L - 1 - (k + 1) = m := by omega
    rw [hm] at hprev hstep
    rw [hm2]
    exact Called.step m (chainConf cif (confInicialMaxima cif) k) (confInicialMaxima cif)
      (chainConf cif (confInicialMaxima cif) (k + 1)) hprev
      (consistente_of_f_ne cif (m + 1) _ _ (by rw [← hm] at hprev ⊢; exact hinv.1))
      hstep.2.2.1 hstep.1

theorem chain_last (cif : Cifra) (h0 : 0 < cif.L) :
    saoCompativeis cif 0 (chainConf cif (confInicialMaxima cif) (cif.L - 1))
        (confInicialMaxima cif) = true ∧
    (f cif 0 (chainConf cif (confInicialMaxima cif) (cif.L - 1))
        (confInicialMaxima cif)).valor =
      valorLinha cif 0 (chainConf cif (confInicialMaxima cif) (cif.L - 1)) := by
  have hinv := chain_inv cif h0 (cif.L - 1) (by omega)
  have h00 : cif.L - 1 - (cif.L - 1) = 0 := by omega
  rw [h00] at hinv
  rcases f_zero_spec cif _ _ hinv.1 with ⟨_, hs, heq⟩
  exact ⟨hs, by rw [heq]⟩

/-! ### Summation along the chain -/

theorem tailSum_step (g : Nat → Int) (L m : Nat) (h : m < L) :
    tailSum g L m = g m + tailSum g L (m + 1) := by
  unfold tailSum
  rw [List.drop_eq_getElem_cons (by simpa using h)]
  simp

theorem tailSum_end (g : Nat → Int) (L : Nat) : tailSum g L L = 0 := by
  unfold tailSum
  rw [List.drop_eq_nil_of_le (by simp)]
  rfl

/-- The value contributed by reconstruction step `j` (row `L - 1 - j`). -/
def vlChain (cif : Cifra) (j : Nat) : Int :=
  valorLinha cif (cif.L - 1 - j) (chainConf cif (confInicialMaxima cif) j)

theorem chain_sum_aux (cif : Cifra) (h0 : 0 < cif.L) :
    ∀ d k, k < cif.L → cif.L - 1 - k = d →
      (f cif (cif.L - 1 - k) (chainConf cif (confInicialMaxima cif) k)
        (confInicialMaxima cif)).valor =
      tailSum (vlChain cif) cif.L k := by
  intro d
  induction d with
  | zero =>
    intro k hk hd
    have hkL : k = cif.L - 1 := by omega
    subst hkL
    have h00 : cif.L - 1 - (cif.L - 1) = 0 := by omega
    have hL1 : cif.L - 1 + 1 = cif.L := by omega
    rw [tailSum_step _ _ _ (by omega), hL1, tailSum_end]
    rw [h00, (chain_last cif h0).2]
    unfold vlChain
    rw [h00]
    omega
  | succ d ih =>
    intro k hk hd
    have hk1 : k + 1 < cif.L := by omega
    have hstep := chain_step cif h0 k hk1 (chain_inv cif h0 k (by omega)).1
    rw [tailSum_step _ _ _ (by omega), hstep.2.2.2, ih (k + 1) hk1 (by omega)]
    unfold vlChain
    omega

theorem chain_sum (cif : Cifra) (h0 : 0 < cif.L) :
    maxValorCaixa cif = tailSum (vlChain cif) cif.L 0 := by
  have := chain_sum_aux cif h0 (cif.L - 1) 0 h0 rfl
  rw [maxValorCaixa_eq cif]
  exact this

/-! ### The reconstruction loop: counter, list, membership, sums -/

theorem foldl_push (conf i : Nat) (l : List Nat) (st : Nat × List (Nat × Nat)) :
    l.foldl (fun st j =>
        if GET_BIT conf j == 1 then (st.1 + 1, st.2 ++ [(i + 1, j + 1)]) else st) st =
      (st.1 + (l.filterMap fun j =>
          if GET_BIT conf j == 1 then some (i + 1, j + 1) else none).length,
        st.2 ++ (l.filterMap fun j =>
          if GET_BIT conf j == 1 then some (i + 1, j + 1) else none)) := by
  induction l generalizing st with
  | nil => simp
  | cons x xs ih =>
    simp only [List.foldl_cons]
    rcases Bool.eq_false_or_eq_true (GET_BIT conf x == 1) with hx | hx
    · rw [if_pos hx, ih]
      simp only [List.filterMap_cons, hx, if_pos, List.length_cons, Prod.mk.injEq,
        List.append_assoc, List.singleton_append]
      exact ⟨by omega, trivial⟩
    · rw [if_neg (by simp [hx])]
      simp only [List.filterMap_cons, hx]
      exact ih st

theorem reconRow_eq (conf i C : Nat) (st : Nat × List (Nat × Nat)) :
    reconRow conf i C st =
      (st.1 + (rowCells conf i C).length, st.2 ++ rowCells conf i C) := by
  unfold reconRow rowCells
  exact foldl_push conf i ((List.range C).reverse) st

theorem recon_eq_aux (cif : Cifra) (A : Nat) (l : List Nat) (st : Nat × List (Nat × Nat)) :
    l.foldl (fun st k => reconRow (chainConf cif A k) (cif.L - 1 - k) cif.C st) st =
      (st.1 + ((l.map fun k =>
          rowCells (chainConf cif A k) (cif.L - 1 - k) cif.C).flatten).length,
        st.2 ++ (l.map fun k =>
          rowCells (chainConf cif A k) (cif.L - 1 - k) cif.C).flatten) := by
  induction l generalizing st with
  | nil => simp
  | cons x xs ih =>
    simp only [List.foldl_cons, List.map_cons, List.flatten_cons]
    rw [reconRow_eq, ih]
    simp only [List.length_append, List.append_assoc, Prod.mk.injEq]
    exact ⟨by omega, trivial⟩

theorem recon_eq (cif : Cifra) (A : Nat) (st : Nat × List (Nat × Nat)) :
    recon cif A st =
      (st.1 + (solucaoList cif A).length, st.2 ++ solucaoList cif A) := by
  unfold recon solucaoList
  exact recon_eq_aux cif A (List.range cif.L) st

theorem Resolve_eq (s : CifraState) :
    Resolve s = ⟨s.cif,
      s.num_cristais_usados + (solucaoList s.cif (confInicialMaxima s.cif)).length,
      maxValorCaixa s.cif,
      s.cristais_solucao ++ solucaoList s.cif (confInicialMaxima s.cif)⟩ := by
  simp only [Resolve, confInicialMaxima, maxValorCaixa]
  rw [recon_eq]

theorem mem_rowCells (conf i C a b : Nat) :
    (a, b) ∈ rowCells conf i C ↔
      ∃ j, j < C ∧ GET_BIT conf j = 1 ∧ a = i + 1 ∧ b = j + 1 := by
  unfold rowCells
  simp only [List.mem_filterMap, List.mem_reverse, List.mem_range]
  constructor
  · rintro ⟨j, hj, hsome⟩
    refine ⟨j, hj, ?_⟩
    split at hsome
    · rename_i hcond
      injection hsome with hpair
      have h1 : i + 1 = a := congrArg Prod.fst hpair
      have h2 : j + 1 = b := congrArg Prod.snd hpair
      exact ⟨by simpa using hcond, h1.symm, h2.symm⟩
    · exact absurd hsome (by simp)
  · rintro ⟨j, hj, hbit, rfl, rfl⟩
    exact ⟨j, hj, by simp [hbit]⟩

theorem mem_solucaoList (cif : Cifra) (A : Nat) (r c : Nat) (hr : r < cif.L) :
    ((r + 1, c + 1) ∈ solucaoList cif A) ↔
      (c < cif.C ∧ GET_BIT (chainConf cif A (cif.L - 1 - r)) c = 1) := by
  unfold solucaoList
  simp only [List.mem_flatten, List.mem_map]
  constructor
  · rintro ⟨lst, ⟨k, hk, rfl⟩, hmem⟩
    rw [List.mem_range] at hk
    rw [mem_rowCells] at hmem
    obtain ⟨j, hj, hbit, ha, hb⟩ := hmem
    have hkr : k = cif.L - 1 - r := by omega
    have hjc : j = c := by omega
    subst hkr
    subst hjc
    exact ⟨hj, hbit⟩
  · rintro ⟨hc, hbit⟩
    refine ⟨rowCells (chainConf cif A (cif.L - 1 - r))
        (cif.L - 1 - (cif.L - 1 - r)) cif.C,
      ⟨cif.L - 1 - r, List.mem_range.mpr (by omega), rfl⟩, ?_⟩
    rw [mem_rowCells]
    exact ⟨c, hc, hbit, by omega, rfl⟩

theorem mem_solucaoList_shape (cif : Cifra) (A : Nat) :
    ∀ pr ∈ solucaoList cif A,
      ∃ k j, k < cif.L ∧ j < cif.C ∧ pr = (cif.L - 1 - k + 1, j + 1) := by
  intro pr hpr
  unfold solucaoList at hpr
  simp only [List.mem_flatten, List.mem_map] at hpr
  obtain ⟨lst, ⟨k, hk, rfl⟩, hmem⟩ := hpr
  obtain ⟨a, b⟩ := pr
  rw [mem_rowCells] at hmem
  obtain ⟨j, hj, _, rfl, rfl⟩ := hmem
  exact ⟨k, j, List.mem_range.mp hk, hj, rfl⟩

/-! ### Sum of recorded brightness values along the solution list -/

theorem filterMap_if_eq_map_filter {α : Type} (p : Nat → Bool) (g : Nat → α)
    (l : List Nat) :
    l.filterMap (fun j => if p j then some (g j) else none) = (l.filter p).map g := by
  induction l with
  | nil => rfl
  | cons x xs ih =>
    rcases Bool.eq_false_or_eq_true (p x) with hx | hx
    · simp [hx, ih]
    · simp [hx, ih]

theorem foldl_if_add (g : Nat → Int) (p : Nat → Bool) (l : List Nat) (init : Int) :
    l.foldl (fun acc j => if p j then acc + g j else acc) init =
      init + ((l.filter p).map g).sum := by
  induction l generalizing init with
  | nil => simp
  | cons x xs ih =>
    rcases Bool.eq_false_or_eq_true (p x) with hx | hx
    · rw [List.foldl_cons, if_pos hx, ih, List.filter_cons_of_pos hx, List.map_cons,
        List.sum_cons]
      ring
    · rw [List.foldl_cons, if_neg (by simp [hx]), ih, List.filter_cons_of_neg (by simp [hx])]

theorem valorLinha_eq_sum (cif : Cifra) (linha conf : Nat) :
    valorLinha cif linha conf =
      (((List.range cif.C).filter fun j => GET_BIT conf j == 1).map
        fun j => (cif.caixa linha j).brilho).sum := by
  unfold valorLinha
  rw [foldl_if_add]
  ring

theorem rowCells_sum (cif : Cifra) (conf i : Nat) :
    ((rowCells conf i cif.C).map
      fun pr => (cif.caixa (pr.1 - 1) (pr.2 - 1)).brilho).sum =
      valorLinha cif i conf := by
  unfold rowCells
  rw [filterMap_if_eq_map_filter, List.map_map, List.filter_reverse, List.map_reverse,
    List.sum_reverse, valorLinha_eq_sum]
  congr 1

theorem solucao_sum (cif : Cifra) (A : Nat) :
    ((solucaoList cif A).map
      fun pr => (cif.caixa (pr.1 - 1) (pr.2 - 1)).brilho).sum =
      ((List.range cif.L).map
        fun k => valorLinha cif (cif.L - 1 - k) (chainConf cif A k)).sum := by
  unfold solucaoList
  rw [List.map_flatten, List.sum_flatten, List.map_map, List.map_map]
  congr 1
  apply List.map_congr_left
  intro k _
  simp only [Function.comp_apply]
  exact rowCells_sum cif (chainConf cif A k) (cif.L - 1 - k)

theorem tailSum_zero_eq (g : Nat → Int) (L : Nat) :
    tailSum g L 0 = ((List.range L).map g).sum := by
  unfold tailSum
  rw [List.drop_zero]

/-! ### Unpacking the two constraint predicates -/

theorem consistente_elim (cif : Cifra) (linha conf j : Nat)
    (h : ehInternamenteConsistente cif linha conf = true) (hj : j < cif.C) :
    ¬(GET_BIT conf j = 1 ∧ (cif.caixa linha j).brilho = -1) ∧
    ¬(GET_BIT conf j = 1 ∧ GET_BIT conf ((j + 1) % cif.C) = 1 ∧
      GET_BIT (cif.caixa linha j).conexoes 0 = 1) := by
  unfold ehInternamenteConsistente at h
  rw [List.all_eq_true] at h
  have hb := h j (List.mem_range.mpr hj)
  constructor
  · rintro ⟨h1, h2⟩
    simp [h1, h2] at hb
  · rintro ⟨h1, h2, h3⟩
    simp [h1, h2, h3] at hb

theorem sao_elim (cif : Cifra) (linha ci cs j : Nat)
    (h : saoCompativeis cif linha ci cs = true) (hj : j < cif.C) :
    ¬(GET_BIT ci j = 1 ∧ GET_BIT cs j = 1 ∧
      GET_BIT (cif.caixa linha j).conexoes 1 = 1) := by
  unfold saoCompativeis at h
  rw [List.all_eq_true] at h
  have hb := h j (List.mem_range.mpr hj)
  rintro ⟨h1, h2, h3⟩
  simp [h1, h2, h3] at hb

/-! ### Behaviour on the grid with no crystals placed -/

theorem exists_getbit (C : Nat) : ∀ conf, conf ≠ 0 → conf < 2 ^ C →
    ∃ j, j < C ∧ GET_BIT conf j = 1 := by
  induction C with
  | zero =>
    intro conf h1 h2
    simp at h2
    omega
  | succ C ih =>
    intro conf h1 h2
    by_cases hpar : conf % 2 = 1
    · refine ⟨0, by omega, ?_⟩
      simp [GET_BIT, Nat.shiftRight_zero, hpar]
    · have hne : conf / 2 ≠ 0 := by omega
      have hlt : conf / 2 < 2 ^ C := by
        have hp : 2 ^ (C + 1) = 2 ^ C * 2 := pow_succ 2 C
        omega
      obtain ⟨j, hj, hbit⟩ := ih (conf / 2) hne hlt
      refine ⟨j + 1, by omega, ?_⟩
      have hsh : conf >>> (j + 1) = (conf / 2) >>> j := by
        rw [show j + 1 = 1 + j by omega, Nat.shiftRight_add, Nat.shiftRight_one]
      unfold GET_BIT at hbit ⊢
      rw [hsh]
      exact hbit

theorem vazia_inconsistente (cif : Cifra) (hE : ∀ i j, cif.caixa i j = ⟨-1, 0⟩)
    (linha conf : Nat) (h1 : conf ≠ 0) (h2 : conf < numPossibilidades cif) :
    ehInternamenteConsistente cif linha conf = false := by
  obtain ⟨j, hj, hbit⟩ := exists_getbit cif.C conf h1 h2
  unfold ehInternamenteConsistente
  rw [List.all_eq_false]
  refine ⟨j, List.mem_range.mpr hj, ?_⟩
  simp [hbit, hE linha j]

theorem vazia_f_dead (cif : Cifra) (hE : ∀ i j, cif.caixa i j = ⟨-1, 0⟩)
    (linha conf a : Nat) (h1 : conf ≠ 0) (h2 : conf < numPossibilidades cif) :
    f cif linha conf a = ⟨true, -1, 0⟩ :=
  f_dead_of_not_consistente cif linha conf a (vazia_inconsistente cif hE linha conf h1 h2)

theorem foldl_fixed {α β : Type} (stepf : α → β → α) (acc : α) (l : List β)
    (h : ∀ x ∈ l, stepf acc x = acc) : l.foldl stepf acc = acc := by
  induction l with
  | nil => rfl
  | cons x xs ih =>
    rw [List.foldl_cons, h x (List.mem_cons_self x xs)]
    exact ih fun y hy => h y (List.mem_cons_of_mem x hy)

theorem vazia_f00 (cif : Cifra) (hE : ∀ i j, cif.caixa i j = ⟨-1, 0⟩) :
    ∀ linha, f cif linha 0 0 = ⟨true, 0, 0⟩ := by
  intro linha
  induction linha with
  | zero =>
    rw [f_zero_eq cif 0 0 (consistente_zero cif 0) (sao_zero_left cif 0 0)]
    rw [valorLinha_zero]
  | succ n ih =>
    rw [f_succ_eq cif n 0 0 (consistente_zero cif (n + 1))]
    obtain ⟨m, hm⟩ : ∃ m, numPossibilidades cif = m + 1 :=
      ⟨numPossibilidades cif - 1, by have := numPossibilidades_pos cif; omega⟩
    rw [hm, List.range_succ_eq_map, List.foldl_cons]
    have hstep0 : passo (valorLinha cif (n + 1) 0)
        (fun poss => saoCompativeis cif (n + 1) 0 poss)
        (fun poss => f cif n poss 0) ⟨true, -1, 0⟩ 0 = ⟨true, 0, 0⟩ := by
      simp only [passo]
      rw [if_neg (by simp [sao_zero_left]), ih, valorLinha_zero]
      norm_num
    rw [hstep0]
    apply foldl_fixed
    intro x hx
    rw [List.mem_map] at hx
    obtain ⟨y, hy, rfl⟩ := hx
    rw [List.mem_range] at hy
    simp only [passo]
    rw [vazia_f_dead cif hE n (y + 1) 0 (by omega) (by omega)]
    simp

theorem vazia_anchor (cif : Cifra)
    (hE : ∀ i j, cif.caixa i j = ⟨-1, 0⟩) :
    anchorLoop cif = (0, ⟨true, 0, 0⟩) := by
  unfold anchorLoop
  obtain ⟨m, hm⟩ : ∃ m, numPossibilidades cif = m + 1 :=
    ⟨numPossibilidades cif - 1, by have := numPossibilidades_pos cif; omega⟩
  rw [hm, List.range_succ_eq_map, List.foldl_cons]
  have hstep0 : passoAncora (fun i => f cif (cif.L - 1) i i)
      ((-1 : Int), ⟨true, -1, 0⟩) 0 = (0, ⟨true, 0, 0⟩) := by
    simp only [passoAncora]
    rw [vazia_f00 cif hE (cif.L - 1)]
    norm_num
  rw [hstep0]
  apply foldl_fixed
  intro x hx
  rw [List.mem_map] at hx
  obtain ⟨y, hy, rfl⟩ := hx
  rw [List.mem_range] at hy
  simp only [passoAncora]
  rw [vazia_f_dead cif hE (cif.L - 1) (y + 1) (y + 1) (by omega) (by omega)]
  norm_num

theorem vazia_chain (cif : Cifra)
    (hE : ∀ i j, cif.caixa i j = ⟨-1, 0⟩) :
    ∀ k, chainConf cif (confInicialMaxima cif) k = 0 := by
  have hA : confInicialMaxima cif = 0 := by
    unfold confInicialMaxima
    rw [vazia_anchor cif hE]
    rfl
  intro k
  induction k with
  | zero => exact hA
  | succ k ih =>
    show (f cif ((cif.L - 1 - k + cif.L) % cif.L)
      (chainConf cif (confInicialMaxima cif) k) (confInicialMaxima cif)).conf = 0
    rw [ih, hA, vazia_f00 cif hE]

theorem rowCells_zero (i C : Nat) : rowCells 0 i C = [] := by
  unfold rowCells
  rw [List.filterMap_eq_nil_iff]
  intro j _
  simp [GET_BIT_zero]

/-! ### Claim theorems -/

/-- Claim C1: for every grid, after `Resolve()` the reported pair
(selected_count, total_value) is consistent with the reported cell list:
`max_valor_caixa_` equals the sum of the stored brightness values of the cells
listed in `cristais_solucao_`, and `num_cristais_usados_` equals the length of
`cristais_solucao_`. -/
theorem c1_valores_solucao_consistentes (cif : Cifra) (h0 : 0 < cif.L) :
    (Resolve (initState cif)).max_valor_caixa =
      (((Resolve (initState cif)).cristais_solucao).map
        fun pr => (cif.caixa (pr.1 - 1) (pr.2 - 1)).brilho).sum ∧
    (Resolve (initState cif)).num_cristais_usados =
      ((Resolve (initState cif)).cristais_solucao).length := by
  rw [Resolve_eq]
  simp only [initState, List.nil_append, Nat.zero_add]
  constructor
  · rw [solucao_sum cif (confInicialMaxima cif), chain_sum cif h0, tailSum_zero_eq]
    rfl
  · trivial

/-- Witness for C1 at the concrete grid `cifExemplo`. -/
theorem c1_witness : 0 < cifExemplo.L ∧
    ((Resolve (initState cifExemplo)).max_valor_caixa =
      (((Resolve (initState cifExemplo)).cristais_solucao).map
        fun pr => (cifExemplo.caixa (pr.1 - 1) (pr.2 - 1)).brilho).sum ∧
    (Resolve (initState cifExemplo)).num_cristais_usados =
      ((Resolve (initState cifExemplo)).cristais_solucao).length) :=
  ⟨by decide, c1_valores_solucao_consistentes cifExemplo (by decide)⟩

/-- Claim C4: for every grid with no crystals placed (every cell keeps the
default `⟨-1, 0⟩`), `Resolve()` terminates with output `0 0` and an empty cell
list: the empty configuration is the only feasible one, so the result degrades
to the empty selection with total value 0. -/
theorem c4_caixa_vazia (cif : Cifra)
    (hE : ∀ i j, cif.caixa i j = ⟨-1, 0⟩) :
    GetValoresSolucao (Resolve (initState cif)) = (0, 0) ∧
    (Resolve (initState cif)).cristais_solucao = [] := by
  have hsol : solucaoList cif (confInicialMaxima cif) = [] := by
    unfold solucaoList
    rw [List.flatten_eq_nil_iff]
    intro lst hl
    rw [List.mem_map] at hl
    obtain ⟨k, hk, rfl⟩ := hl
    rw [vazia_chain cif hE k, rowCells_zero]
  have hmax : maxValorCaixa cif = 0 := by
    unfold maxValorCaixa
    rw [vazia_anchor cif hE]
  constructor
  · rw [Resolve_eq]
    simp [GetValoresSolucao, initState, hsol, hmax]
  · rw [Resolve_eq]
    simp [initState, hsol]

/-- Witness for C4 at the concrete empty grid `cifVazia`. -/
theorem c4_witness : (∀ i j, cifVazia.caixa i j = ⟨-1, 0⟩) ∧
    (GetValoresSolucao (Resolve (initState cifVazia)) = (0, 0) ∧
      (Resolve (initState cifVazia)).cristais_solucao = []) :=
  ⟨fun _ _ => rfl, c4_caixa_vazia cifVazia (fun _ _ => rfl)⟩

/-- Claim C5 counterexample: invoking `Resolve()` a second time on the same
`Cifra` object does not return the same pair from `GetValoresSolucao()`: on
the 1x1 grid with one crystal of value 5, the first solve reports `(1, 5)` but
the second solve reports `(2, 5)`, because `num_cristais_usados_` and
`cristais_solucao_` are never reset and the reconstruction appends again. -/
theorem c5_counterexample :
    GetValoresSolucao (Resolve (Resolve (initState cifUmCristal))) ≠
      GetValoresSolucao (Resolve (initState cifUmCristal)) := by decide

/-- Claim C5, amended: a second `Resolve()` on the same object leaves
`max_valor_caixa_` unchanged but appends the same solution again, doubling
`num_cristais_usados_` and `cristais_solucao_`; the reported pair is therefore
preserved only in its total-value component. -/
theorem c5_amended_segunda_resolucao (cif : Cifra) :
    (Resolve (Resolve (initState cif))).max_valor_caixa =
      (Resolve (initState cif)).max_valor_caixa ∧
    (Resolve (Resolve (initState cif))).num_cristais_usados =
      2 * (Resolve (initState cif)).num_cristais_usados ∧
    (Resolve (Resolve (initState cif))).cristais_solucao =
      (Resolve (initState cif)).cristais_solucao ++
        (Resolve (initState cif)).cristais_solucao := by
  rw [Resolve_eq (initState cif), Resolve_eq]
  simp only [initState, List.nil_append, Nat.zero_add]
  exact ⟨trivial, by omega, trivial⟩

/-- Claim C7: in the DP transition of `f` for a row `> 0` with a live answer,
the recorded predecessor is a compatible, live configuration achieving the
maximum, and among all such configurations achieving the same maximal value it
is the first in increasing integer order (the maximum is replaced only on
strict improvement). -/
theorem c7_desempate_primeira_configuracao (cif : Cifra) (linha conf a : Nat)
    (hv : (f cif (linha + 1) conf a).valor ≠ -1) :
    saoCompativeis cif (linha + 1) conf ((f cif (linha + 1) conf a).conf) = true ∧
    (f cif linha ((f cif (linha + 1) conf a).conf) a).valor ≠ -1 ∧
    (f cif (linha + 1) conf a).valor =
      (f cif linha ((f cif (linha + 1) conf a).conf) a).valor +
        valorLinha cif (linha + 1) conf ∧
    ∀ q, q < numPossibilidades cif →
      saoCompativeis cif (linha + 1) conf q = true →
      (f cif linha q a).valor ≠ -1 →
      (f cif linha q a).valor + valorLinha cif (linha + 1) conf =
        (f cif (linha + 1) conf a).valor →
      (f cif (linha + 1) conf a).conf ≤ q := by
  obtain ⟨p, hp, hsao, hvp, heq, hgt, hmin⟩ := f_succ_attains cif linha conf a hv
  have hconf : (f cif (linha + 1) conf a).conf = p := by rw [heq]
  have hvalor : (f cif (linha + 1) conf a).valor =
      (f cif linha p a).valor + valorLinha cif (linha + 1) conf := by rw [heq]
  rw [hconf, hvalor]
  refine ⟨hsao, hvp, rfl, ?_⟩
  intro q hq hsq hvq hval
  exact hmin q hq hsq hvq hval

/-- Witness for C7 at the concrete grid `cifEmpate`, row 1, configuration 0,
anchor 0 (both candidate configurations of row 0 tie at value 0). -/
theorem c7_witness : (f cifEmpate 1 0 0).valor ≠ -1 ∧
    (saoCompativeis cifEmpate 1 0 ((f cifEmpate 1 0 0).conf) = true ∧
    (f cifEmpate 0 ((f cifEmpate 1 0 0).conf) 0).valor ≠ -1 ∧
    (f cifEmpate 1 0 0).valor =
      (f cifEmpate 0 ((f cifEmpate 1 0 0).conf) 0).valor +
        valorLinha cifEmpate 1 0 ∧
    ∀ q, q < numPossibilidades cifEmpate →
      saoCompativeis cifEmpate 1 0 q = true →
      (f cifEmpate 0 q 0).valor ≠ -1 →
      (f cifEmpate 0 q 0).valor + valorLinha cifEmpate 1 0 =
        (f cifEmpate 1 0 0).valor →
      (f cifEmpate 1 0 0).conf ≤ q) :=
  ⟨by decide, c7_desempate_primeira_configuracao cifEmpate 0 0 0 (by decide)⟩

/-- Claim C2: the selection emitted by `Resolve()` violates no horizontal
constraint: there is no row `r` and column `j` such that both `(r, j)` and
`(r, (j + 1) % C)` are selected while the cell at `(r, j)` has its
right-connection bit (bit 0) set — including the wrap pair of column `C - 1`
with column 0.  (Cells are listed 1-based in `cristais_solucao_`.) -/
theorem c2_sem_violacao_horizontal (cif : Cifra) (h0 : 0 < cif.L) (r j : Nat)
    (hr : r < cif.L) (hj : j < cif.C) :
    ¬((r + 1, j + 1) ∈ (Resolve (initState cif)).cristais_solucao ∧
      (r + 1, (j + 1) % cif.C + 1) ∈ (Resolve (initState cif)).cristais_solucao ∧
      GET_BIT (cif.caixa r j).conexoes 0 = 1) := by
  rw [Resolve_eq]
  simp only [initState, List.nil_append]
  rintro ⟨hm1, hm2, hconn⟩
  rw [mem_solucaoList cif _ r j hr] at hm1
  rw [mem_solucaoList cif _ r ((j + 1) % cif.C) hr] at hm2
  have hinv := chain_inv cif h0 (cif.L - 1 - r) (by omega)
  have hrow : cif.L - 1 - (cif.L - 1 - r) = r := by omega
  rw [hrow] at hinv
  have hcons := consistente_of_f_ne cif r _ _ hinv.1
  exact (consistente_elim cif r _ j hcons hj).2 ⟨hm1.2, hm2.2, hconn⟩

/-- Witness for C2 at the concrete grid `cifExemplo`, row 0, column 0. -/
theorem c2_witness : 0 < cifExemplo.L ∧ 0 < cifExemplo.L ∧ 0 < cifExemplo.C ∧
    ¬((0 + 1, 0 + 1) ∈ (Resolve (initState cifExemplo)).cristais_solucao ∧
      (0 + 1, (0 + 1) % cifExemplo.C + 1) ∈
        (Resolve (initState cifExemplo)).cristais_solucao ∧
      GET_BIT (cifExemplo.caixa 0 0).conexoes 0 = 1) :=
  ⟨by decide, by decide, by decide,
    c2_sem_violacao_horizontal cifExemplo (by decide) 0 0 (by decide) (by decide)⟩

/-- Claim C3: the selection emitted by `Resolve()` violates no vertical
constraint: there is no row `r` and column `j` such that both `(r, j)` and
`((r - 1 + L) % L, j)` are selected while the lower cell `(r, j)` has its
up-connection bit (bit 1) set — including the cyclic pair of row 0 with row
`L - 1`, enforced through the anchor configuration.  (`(r + L - 1) % L` is the
`Nat`-safe spelling of `(r - 1 + L) % L`.) -/
theorem c3_sem_violacao_vertical (cif : Cifra) (h0 : 0 < cif.L) (r j : Nat)
    (hr : r < cif.L) (hj : j < cif.C) :
    ¬((r + 1, j + 1) ∈ (Resolve (initState cif)).cristais_solucao ∧
      ((r + cif.L - 1) % cif.L + 1, j + 1) ∈
        (Resolve (initState cif)).cristais_solucao ∧
      GET_BIT (cif.caixa r j).conexoes 1 = 1) := by
  rw [Resolve_eq]
  simp only [initState, List.nil_append]
  rintro ⟨hm1, hm2, hconn⟩
  rw [mem_solucaoList cif _ r j hr] at hm1
  have hu : (r + cif.L - 1) % cif.L < cif.L := Nat.mod_lt _ h0
  rw [mem_solucaoList cif _ _ j hu] at hm2
  by_cases hr0 : r = 0
  · subst hr0
    have humod : (0 + cif.L - 1) % cif.L = cif.L - 1 := by
      rw [Nat.zero_add, Nat.mod_eq_of_lt (by omega)]
    have hk : cif.L - 1 - ((0 + cif.L - 1) % cif.L) = 0 := by
      rw [humod]; omega
    rw [hk] at hm2
    have hlast := (chain_last cif h0).1
    exact sao_elim cif 0 _ _ j hlast hj ⟨hm1.2, hm2.2, hconn⟩
  · have humod : (r + cif.L - 1) % cif.L = r - 1 := by
      have hrw : r + cif.L - 1 = (r - 1) + cif.L := by omega
      rw [hrw, Nat.add_mod_right, Nat.mod_eq_of_lt (by omega)]
    rw [humod] at hm2
    have hk1 : (cif.L - 1 - r) + 1 < cif.L := by omega
    have hstep := chain_step cif h0 (cif.L - 1 - r) hk1
      (chain_inv cif h0 (cif.L - 1 - r) (by omega)).1
    have hrow : cif.L - 1 - (cif.L - 1 - r) = r := by omega
    rw [hrow] at hstep
    have hidx : cif.L - 1 - (r - 1) = (cif.L - 1 - r) + 1 := by omega
    rw [hidx] at hm2
    exact sao_elim cif r _ _ j hstep.1 hj ⟨hm1.2, hm2.2, hconn⟩

/-- Witness for C3 at the concrete grid `cifExemplo`, row 1, column 0. -/
theorem c3_witness : 0 < cifExemplo.L ∧ 1 < cifExemplo.L ∧ 0 < cifExemplo.C ∧
    ¬((1 + 1, 0 + 1) ∈ (Resolve (initState cifExemplo)).cristais_solucao ∧
      ((1 + cifExemplo.L - 1) % cifExemplo.L + 1, 0 + 1) ∈
        (Resolve (initState cifExemplo)).cristais_solucao ∧
      GET_BIT (cifExemplo.caixa 1 0).conexoes 1 = 1) :=
  ⟨by decide, by decide, by decide,
    c3_sem_violacao_vertical cifExemplo (by decide) 1 0 (by decide) (by decide)⟩

/-- Each row block of the reconstruction lists its cells with strictly
decreasing column, all in the same row. -/
theorem rowCells_pairwise (conf i C : Nat) :
    List.Pairwise (fun p q : Nat × Nat => q.1 < p.1 ∨ (p.1 = q.1 ∧ q.2 < p.2))
      (rowCells conf i C) := by
  unfold rowCells
  rw [filterMap_if_eq_map_filter, List.pairwise_map]
  have hrev : ((List.range C).reverse).Pairwise (fun a b => b < a) :=
    (List.pairwise_reverse).mpr (List.pairwise_lt_range C)
  have hfil := hrev.filter (fun j => GET_BIT conf j == 1)
  refine hfil.imp ?_
  intro a b hba
  exact Or.inr ⟨rfl, by omega⟩

/-- The full solution list is strictly decreasing in the lexicographic
(row, column) order: bottom row first, and right to left inside a row. -/
theorem solucao_pairwise (cif : Cifra) (A : Nat) :
    List.Pairwise (fun p q : Nat × Nat => q.1 < p.1 ∨ (p.1 = q.1 ∧ q.2 < p.2))
      (solucaoList cif A) := by
  unfold solucaoList
  rw [List.pairwise_flatten]
  constructor
  · intro l' hl'
    rw [List.mem_map] at hl'
    obtain ⟨k, hk, rfl⟩ := hl'
    exact rowCells_pairwise _ _ _
  · rw [List.pairwise_map, List.pairwise_iff_getElem]
    intro i j hi hj hij
    simp only [List.getElem_range]
    intro x hx y hy
    obtain ⟨a, b⟩ := x
    obtain ⟨c, d⟩ := y
    rw [mem_rowCells] at hx hy
    obtain ⟨jx, hjx, _, rfl, rfl⟩ := hx
    obtain ⟨jy, hjy, _, rfl, rfl⟩ := hy
    left
    have hjL : j < cif.L := by
      rw [List.length_range] at hj
      exact hj
    omega

/-- Claim C8: the cell list produced by `Resolve()` (and printed by `main` in
list order) is ordered bottom row to top row and, within each row, column
`C - 1` down to column 0 — i.e. strictly decreasing in lexicographic
(row, column) order — and every entry is a 1-based coordinate pair inside the
grid. -/
theorem c8_ordem_reconstrucao (cif : Cifra) :
    List.Pairwise (fun p q : Nat × Nat => q.1 < p.1 ∨ (p.1 = q.1 ∧ q.2 < p.2))
      (Resolve (initState cif)).cristais_solucao ∧
    ∀ pr ∈ (Resolve (initState cif)).cristais_solucao,
      1 ≤ pr.1 ∧ pr.1 ≤ cif.L ∧ 1 ≤ pr.2 ∧ pr.2 ≤ cif.C := by
  rw [Resolve_eq]
  simp only [initState, List.nil_append]
  refine ⟨solucao_pairwise cif _, ?_⟩
  intro pr hpr
  obtain ⟨k, j, hk, hj, rfl⟩ := mem_solucaoList_shape cif _ pr hpr
  simp only []
  omega

/-- Claim C10: the anchor loop of `Resolve()` always selects a winning anchor:
`f(L-1, 0, 0)` has value `≥ 0`, so after the loop `conf_inicial_maxima` lies
in `[0, 2^C)` and `max_valor_caixa_ ≥ 0`; moreover every memo entry read by
the reconstruction loop is in bounds (configuration `< 2^C`), live
(`valor ≠ -1`), and already computed (`Called`). -/
theorem c10_ancora_e_memo_seguros (cif : Cifra) (h0 : 0 < cif.L) :
    0 ≤ (f cif (cif.L - 1) 0 0).valor ∧
    0 ≤ (anchorLoop cif).1 ∧
    (anchorLoop cif).1 < (numPossibilidades cif : Int) ∧
    0 ≤ (anchorLoop cif).2.valor ∧
    ∀ k, k < cif.L →
      chainConf cif (confInicialMaxima cif) k < numPossibilidades cif ∧
      (f cif (cif.L - 1 - k) (chainConf cif (confInicialMaxima cif) k)
        (confInicialMaxima cif)).valor ≠ -1 ∧
      Called cif (cif.L - 1 - k) (chainConf cif (confInicialMaxima cif) k)
        (confInicialMaxima cif) := by
  obtain ⟨p, hp, heq, hpos⟩ := anchorLoop_spec cif
  have h1 : (anchorLoop cif).1 = (p : Int) := by rw [heq]
  have h2 : (anchorLoop cif).2 = f cif (cif.L - 1) p p := by rw [heq]
  refine ⟨f_zeroconf_nonneg cif _ 0, ?_, ?_, ?_, ?_⟩
  · rw [h1]
    exact Int.natCast_nonneg p
  · rw [h1]
    exact_mod_cast hp
  · rw [h2]
    exact hpos
  · intro k hk
    have hinv := chain_inv cif h0 k hk
    exact ⟨hinv.2, hinv.1, chain_called cif h0 k hk⟩

/-- Witness for C10 at the concrete grid `cifExemplo`. -/
theorem c10_witness : 0 < cifExemplo.L ∧
    (0 ≤ (f cifExemplo (cifExemplo.L - 1) 0 0).valor ∧
    0 ≤ (anchorLoop cifExemplo).1 ∧
    (anchorLoop cifExemplo).1 < (numPossibilidades cifExemplo : Int) ∧
    0 ≤ (anchorLoop cifExemplo).2.valor ∧
    ∀ k, k < cifExemplo.L →
      chainConf cifExemplo (confInicialMaxima cifExemplo) k <
        numPossibilidades cifExemplo ∧
      (f cifExemplo (cifExemplo.L - 1 - k)
        (chainConf cifExemplo (confInicialMaxima cifExemplo) k)
        (confInicialMaxima cifExemplo)).valor ≠ -1 ∧
      Called cifExemplo (cifExemplo.L - 1 - k)
        (chainConf cifExemplo (confInicialMaxima cifExemplo) k)
        (confInicialMaxima cifExemplo)) :=
  ⟨by decide, c10_ancora_e_memo_seguros cifExemplo (by decide)⟩

/-! ### Adding a value-0, connection-free crystal at an empty position (C6) -/

theorem addZero_caixa (cif : Cifra) (x0 y0 : Nat) (i j : Nat) :
    (addCristalZero cif x0 y0).caixa i j =
      if i = x0 ∧ j = y0 then ⟨0, 0⟩ else cif.caixa i j := by
  show AdicionaCristal cif.caixa (x0 + 1) (y0 + 1) 0 0 0 0 0 i j = _
  unfold AdicionaCristal packConexoes
  norm_num

theorem addZero_conexoes (cif : Cifra) (x0 y0 : Nat)
    (hc : (cif.caixa x0 y0).conexoes = 0) (i j : Nat) :
    ((addCristalZero cif x0 y0).caixa i j).conexoes = (cif.caixa i j).conexoes := by
  rw [addZero_caixa]
  by_cases hx : i = x0 ∧ j = y0
  · obtain ⟨rfl, rfl⟩ := hx
    rw [if_pos ⟨rfl, rfl⟩, hc]
  · rw [if_neg hx]

theorem addZero_sao (cif : Cifra) (x0 y0 : Nat)
    (hc : (cif.caixa x0 y0).conexoes = 0) (linha ci cs : Nat) :
    saoCompativeis (addCristalZero cif x0 y0) linha ci cs =
      saoCompativeis cif linha ci cs := by
  unfold saoCompativeis
  congr 1
  funext j
  rw [addZero_conexoes cif x0 y0 hc]

theorem addZero_consistente_mono (cif : Cifra) (x0 y0 : Nat)
    (hc : (cif.caixa x0 y0).conexoes = 0) (linha conf : Nat)
    (h : ehInternamenteConsistente cif linha conf = true) :
    ehInternamenteConsistente (addCristalZero cif x0 y0) linha conf = true := by
  unfold ehInternamenteConsistente at h ⊢
  rw [List.all_eq_true] at h ⊢
  intro j hj
  have hb := h j hj
  rw [Bool.and_eq_true] at hb ⊢
  refine ⟨?_, ?_⟩
  · rw [addZero_caixa]
    by_cases hx : linha = x0 ∧ j = y0
    · rw [if_pos hx]
      simp
    · rw [if_neg hx]
      exact hb.1
  · rw [show ((addCristalZero cif x0 y0).caixa linha j).conexoes =
        (cif.caixa linha j).conexoes from addZero_conexoes cif x0 y0 hc linha j]
    exact hb.2

theorem addZero_consistente_off (cif : Cifra) (x0 y0 : Nat)
    (hc : (cif.caixa x0 y0).conexoes = 0) (linha conf : Nat)
    (hoff : linha = x0 → GET_BIT conf y0 = 0) :
    ehInternamenteConsistente (addCristalZero cif x0 y0) linha conf =
      ehInternamenteConsistente cif linha conf := by
  unfold ehInternamenteConsistente
  have hC : (addCristalZero cif x0 y0).C = cif.C := rfl
  rw [hC]
  congr 1
  funext j
  rw [addZero_conexoes cif x0 y0 hc, addZero_caixa]
  by_cases hx : linha = x0 ∧ j = y0
  · obtain ⟨h1, h2⟩ := hx
    subst h2
    rw [if_pos ⟨h1, rfl⟩]
    simp [hoff h1]
  · rw [if_neg hx]

theorem addZero_valorLinha (cif : Cifra) (x0 y0 : Nat)
    (hb : (cif.caixa x0 y0).brilho = -1) (linha conf : Nat)
    (h : ehInternamenteConsistente cif linha conf = true) :
    valorLinha (addCristalZero cif x0 y0) linha conf = valorLinha cif linha conf := by
  rw [valorLinha_eq_sum, valorLinha_eq_sum]
  congr 1
  apply List.map_congr_left
  intro j hjf
  rw [List.mem_filter, List.mem_range] at hjf
  obtain ⟨hj, hbit⟩ := hjf
  by_cases hx : linha = x0 ∧ j = y0
  · exfalso
    refine (consistente_elim cif linha conf j h hj).1 ⟨by simpa using hbit, ?_⟩
    rw [hx.1, hx.2]
    exact hb
  · rw [addZero_caixa, if_neg hx]

theorem addZero_f_base (cif : Cifra) (x0 y0 : Nat)
    (hb : (cif.caixa x0 y0).brilho = -1) (hc : (cif.caixa x0 y0).conexoes = 0)
    (conf a : Nat) (hv : (f cif 0 conf a).valor ≠ -1) :
    f (addCristalZero cif x0 y0) 0 conf a = f cif 0 conf a := by
  obtain ⟨hcons, hcompat, heq⟩ := f_zero_spec cif conf a hv
  rw [heq, f_zero_eq _ conf a (addZero_consistente_mono cif x0 y0 hc 0 conf hcons)
    (by rw [addZero_sao cif x0 y0 hc]; exact hcompat)]
  rw [addZero_valorLinha cif x0 y0 hb 0 conf hcons]

theorem addZero_f_mono (cif : Cifra) (x0 y0 : Nat)
    (hb : (cif.caixa x0 y0).brilho = -1) (hc : (cif.caixa x0 y0).conexoes = 0) :
    ∀ linha conf a, (f cif linha conf a).valor ≠ -1 →
      (f cif linha conf a).valor ≤ (f (addCristalZero cif x0 y0) linha conf a).valor := by
  intro linha
  induction linha with
  | zero =>
    intro conf a hv
    rw [addZero_f_base cif x0 y0 hb hc conf a hv]
  | succ n ih =>
    intro conf a hv
    have hcons := consistente_of_f_ne cif (n + 1) conf a hv
    obtain ⟨p, hp, hsao, hvp, heq, _, _⟩ := f_succ_attains cif n conf a hv
    have hvp' : (f (addCristalZero cif x0 y0) n p a).valor ≠ -1 ∧
        (f cif n p a).valor ≤ (f (addCristalZero cif x0 y0) n p a).valor := by
      cases n with
      | zero =>
        rw [addZero_f_base cif x0 y0 hb hc p a hvp]
        exact ⟨hvp, le_refl _⟩
      | succ m =>
        have hle := ih p a hvp
        have hnn : 0 ≤ (f cif (m + 1) p a).valor := by
          rcases f_succ_dead_or_nonneg cif m p a with h | h
          · exact absurd h hvp
          · exact h
        refine ⟨?_, hle⟩
        rcases f_succ_dead_or_nonneg (addCristalZero cif x0 y0) m p a with h | h
        · omega
        · omega
    have hge := f_succ_ge (addCristalZero cif x0 y0) n conf a
      (addZero_consistente_mono cif x0 y0 hc (n + 1) conf hcons) p hp
      (by rw [addZero_sao cif x0 y0 hc]; exact hsao) hvp'.1
    rw [addZero_valorLinha cif x0 y0 hb (n + 1) conf hcons] at hge
    have hvaleq : (f cif (n + 1) conf a).valor =
        (f cif n p a).valor + valorLinha cif (n + 1) conf := by rw [heq]
    have hle := hvp'.2
    omega

theorem addZero_max_mono (cif : Cifra) (x0 y0 : Nat)
    (hb : (cif.caixa x0 y0).brilho = -1) (hc : (cif.caixa x0 y0).conexoes = 0) :
    maxValorCaixa cif ≤ maxValorCaixa (addCristalZero cif x0 y0) := by
  obtain ⟨p, hp, heq, hpos⟩ := anchorLoop_spec cif
  have h2 : maxValorCaixa cif = (f cif (cif.L - 1) p p).valor := by
    unfold maxValorCaixa
    rw [heq]
  have hne : (f cif (cif.L - 1) p p).valor ≠ -1 := by omega
  have hmono := addZero_f_mono cif x0 y0 hb hc (cif.L - 1) p p hne
  have hge : (f (addCristalZero cif x0 y0) ((addCristalZero cif x0 y0).L - 1) p p).valor ≤
      maxValorCaixa (addCristalZero cif x0 y0) :=
    foldl_ancora_ge _ _ _ p (List.mem_range.mpr hp)
  have hLeq : (addCristalZero cif x0 y0).L - 1 = cif.L - 1 := rfl
  rw [hLeq] at hge
  omega

/-- Claim C6: adding a crystal with value 0 and all four connection flags 0 at
a position holding no crystal never decreases the `total_value` reported after
`Resolve()`, and does not change the feasibility of any selection of the other
cells: the vertical compatibility predicate is unchanged everywhere, and the
internal-consistency predicate is unchanged on every configuration that does
not select the new cell. -/
theorem c6_monotonicidade (cif : Cifra) (x0 y0 : Nat)
    (hb : (cif.caixa x0 y0).brilho = -1) (hc : (cif.caixa x0 y0).conexoes = 0) :
    (Resolve (initState cif)).max_valor_caixa ≤
      (Resolve (initState (addCristalZero cif x0 y0))).max_valor_caixa ∧
    (∀ linha ci cs, saoCompativeis (addCristalZero cif x0 y0) linha ci cs =
      saoCompativeis cif linha ci cs) ∧
    (∀ linha conf, (linha = x0 → GET_BIT conf y0 = 0) →
      ehInternamenteConsistente (addCristalZero cif x0 y0) linha conf =
        ehInternamenteConsistente cif linha conf) := by
  refine ⟨?_, addZero_sao cif x0 y0 hc, fun linha conf hoff =>
    addZero_consistente_off cif x0 y0 hc linha conf hoff⟩
  rw [Resolve_eq, Resolve_eq]
  exact addZero_max_mono cif x0 y0 hb hc

/-- Witness for C6 at the concrete grid `cifMono` and the empty 0-based
position (1, 1). -/
theorem c6_witness : (cifMono.caixa 1 1).brilho = -1 ∧
    (cifMono.caixa 1 1).conexoes = 0 ∧
    ((Resolve (initState cifMono)).max_valor_caixa ≤
      (Resolve (initState (addCristalZero cifMono 1 1))).max_valor_caixa ∧
    (∀ linha ci cs, saoCompativeis (addCristalZero cifMono 1 1) linha ci cs =
      saoCompativeis cifMono linha ci cs) ∧
    (∀ linha conf, (linha = 1 → GET_BIT conf 1 = 0) →
      ehInternamenteConsistente (addCristalZero cifMono 1 1) linha conf =
        ehInternamenteConsistente cifMono linha conf)) :=
  ⟨by decide, by decide, c6_monotonicidade cifMono 1 1 (by decide) (by decide)⟩

/-! ### The solver never reads the left (bit 2) and down (bit 3) flags (C9) -/

theorem packConexoes_bit0 (d c e b : Nat) :
    GET_BIT (packConexoes d c e b) 0 = (if d = 1 then 1 else 0) := by
  unfold packConexoes GET_BIT
  split_ifs <;> decide

theorem packConexoes_bit1 (d c e b : Nat) :
    GET_BIT (packConexoes d c e b) 1 = (if c = 1 then 1 else 0) := by
  unfold packConexoes GET_BIT
  split_ifs <;> decide

theorem addCristal_equiv (k1 k2 : Nat → Nat → Cristal) (h : caixaEquiv k1 k2)
    (x y : Nat) (v : Int) (d c e1 b1 e2 b2 : Nat) :
    caixaEquiv (AdicionaCristal k1 x y v d c e1 b1)
      (AdicionaCristal k2 x y v d c e2 b2) := by
  intro i j
  unfold AdicionaCristal
  by_cases hx : i = x - 1 ∧ j = y - 1
  · rw [if_pos hx, if_pos hx]
    exact ⟨rfl, by rw [packConexoes_bit0, packConexoes_bit0],
      by rw [packConexoes_bit1, packConexoes_bit1]⟩
  · rw [if_neg hx, if_neg hx]
    exact h i j

theorem applyAdds_equiv :
    ∀ (l1 l2 : List (Nat × Nat × Int × Nat × Nat × Nat × Nat)),
    List.Forall₂ (fun t1 t2 : Nat × Nat × Int × Nat × Nat × Nat × Nat =>
      t1.1 = t2.1 ∧ t1.2.1 = t2.2.1 ∧ t1.2.2.1 = t2.2.2.1 ∧
      t1.2.2.2.1 = t2.2.2.2.1 ∧ t1.2.2.2.2.1 = t2.2.2.2.2.1) l1 l2 →
    ∀ (k1 k2 : Nat → Nat → Cristal), caixaEquiv k1 k2 →
      caixaEquiv (applyAdds k1 l1) (applyAdds k2 l2) := by
  intro l1 l2 hf
  induction hf with
  | nil => intro k1 k2 h; exact h
  | cons hR _ ih =>
    intro k1 k2 h
    rename_i t1 t2 l1' l2' _
    show caixaEquiv (applyAdds (AdicionaCristal k1 t1.1 t1.2.1 t1.2.2.1
        t1.2.2.2.1 t1.2.2.2.2.1 t1.2.2.2.2.2.1 t1.2.2.2.2.2.2) l1')
      (applyAdds (AdicionaCristal k2 t2.1 t2.2.1 t2.2.2.1
        t2.2.2.2.1 t2.2.2.2.2.1 t2.2.2.2.2.2.1 t2.2.2.2.2.2.2) l2')
    obtain ⟨h1, h2, h3, h4, h5⟩ := hR
    rw [← h1, ← h2, ← h3, ← h4, ← h5]
    exact ih _ _ (addCristal_equiv k1 k2 h t1.1 t1.2.1 t1.2.2.1 t1.2.2.2.1
      t1.2.2.2.2.1 t1.2.2.2.2.2.1 t1.2.2.2.2.2.2 t2.2.2.2.2.2.1 t2.2.2.2.2.2.2)

theorem equiv_consistente (L C : Nat) (k1 k2 : Nat → Nat → Cristal)
    (h : caixaEquiv k1 k2) (linha conf : Nat) :
    ehInternamenteConsistente ⟨L, C, k1⟩ linha conf =
      ehInternamenteConsistente ⟨L, C, k2⟩ linha conf := by
  unfold ehInternamenteConsistente
  dsimp only
  congr 1
  funext j
  rw [(h linha j).1, (h linha j).2.1]

theorem equiv_sao (L C : Nat) (k1 k2 : Nat → Nat → Cristal)
    (h : caixaEquiv k1 k2) (linha ci cs : Nat) :
    saoCompativeis ⟨L, C, k1⟩ linha ci cs = saoCompativeis ⟨L, C, k2⟩ linha ci cs := by
  unfold saoCompativeis
  dsimp only
  congr 1
  funext j
  rw [(h linha j).2.2]

theorem equiv_valorLinha (L C : Nat) (k1 k2 : Nat → Nat → Cristal)
    (h : caixaEquiv k1 k2) (linha conf : Nat) :
    valorLinha ⟨L, C, k1⟩ linha conf = valorLinha ⟨L, C, k2⟩ linha conf := by
  rw [valorLinha_eq_sum, valorLinha_eq_sum]
  dsimp only
  congr 1
  apply List.map_congr_left
  intro j _
  exact (h linha j).1

theorem equiv_f (L C : Nat) (k1 k2 : Nat → Nat → Cristal) (h : caixaEquiv k1 k2) :
    ∀ linha conf a, f ⟨L, C, k1⟩ linha conf a = f ⟨L, C, k2⟩ linha conf a := by
  intro linha
  induction linha with
  | zero =>
    intro conf a
    simp only [f]
    rw [equiv_consistente L C k1 k2 h, equiv_sao L C k1 k2 h,
      equiv_valorLinha L C k1 k2 h]
  | succ n ih =>
    intro conf a
    simp only [f]
    rw [equiv_consistente L C k1 k2 h, equiv_valorLinha L C k1 k2 h]
    have hcompat : (fun poss => saoCompativeis ⟨L, C, k1⟩ (n + 1) conf poss) =
        (fun poss => saoCompativeis ⟨L, C, k2⟩ (n + 1) conf poss) :=
      funext fun poss => equiv_sao L C k1 k2 h (n + 1) conf poss
    have hresp : (fun poss => f ⟨L, C, k1⟩ n poss a) =
        (fun poss => f ⟨L, C, k2⟩ n poss a) :=
      funext fun poss => ih poss a
    rw [hcompat, hresp,
      show numPossibilidades ⟨L, C, k1⟩ = numPossibilidades ⟨L, C, k2⟩ from rfl]

theorem equiv_anchor (L C : Nat) (k1 k2 : Nat → Nat → Cristal)
    (h : caixaEquiv k1 k2) : anchorLoop ⟨L, C, k1⟩ = anchorLoop ⟨L, C, k2⟩ := by
  unfold anchorLoop
  dsimp only
  have hfl : (fun i => f ⟨L, C, k1⟩ (L - 1) i i) =
      (fun i => f ⟨L, C, k2⟩ (L - 1) i i) :=
    funext fun i => equiv_f L C k1 k2 h (L - 1) i i
  rw [hfl, show numPossibilidades ⟨L, C, k1⟩ = numPossibilidades ⟨L, C, k2⟩ from rfl]

theorem equiv_chain (L C : Nat) (k1 k2 : Nat → Nat → Cristal)
    (h : caixaEquiv k1 k2) (A : Nat) :
    ∀ k, chainConf ⟨L, C, k1⟩ A k = chainConf ⟨L, C, k2⟩ A k := by
  intro k
  induction k with
  | zero => rfl
  | succ k ih =>
    show (f ⟨L, C, k1⟩ ((L - 1 - k + L) % L) (chainConf ⟨L, C, k1⟩ A k) A).conf = _
    rw [ih, equiv_f L C k1 k2 h]
    rfl

theorem equiv_solucao (L C : Nat) (k1 k2 : Nat → Nat → Cristal)
    (h : caixaEquiv k1 k2) (A : Nat) :
    solucaoList ⟨L, C, k1⟩ A = solucaoList ⟨L, C, k2⟩ A := by
  unfold solucaoList
  dsimp only
  congr 1
  apply List.map_congr_left
  intro k _
  rw [equiv_chain L C k1 k2 h A k]

/-- Claim C9: the solver's entire output is independent of the `e` (left) and
`b` (down) arguments passed to `AdicionaCristal`: two grids built by
crystal-addition lists that agree on position, value, `d` and `c` produce the
same `(selected_count, total_value)` pair and the same cell list, because bits
2 and 3 of the connection mask are stored but never consulted. -/
theorem c9_independencia_esquerda_baixo (L C : Nat)
    (adds1 adds2 : List (Nat × Nat × Int × Nat × Nat × Nat × Nat))
    (h : List.Forall₂ (fun t1 t2 : Nat × Nat × Int × Nat × Nat × Nat × Nat =>
      t1.1 = t2.1 ∧ t1.2.1 = t2.2.1 ∧ t1.2.2.1 = t2.2.2.1 ∧
      t1.2.2.2.1 = t2.2.2.2.1 ∧ t1.2.2.2.2.1 = t2.2.2.2.2.1) adds1 adds2) :
    GetValoresSolucao (Resolve (initState ⟨L, C, applyAdds emptyCaixa adds1⟩)) =
      GetValoresSolucao (Resolve (initState ⟨L, C, applyAdds emptyCaixa adds2⟩)) ∧
    (Resolve (initState ⟨L, C, applyAdds emptyCaixa adds1⟩)).cristais_solucao =
      (Resolve (initState ⟨L, C, applyAdds emptyCaixa adds2⟩)).cristais_solucao := by
  have hEq : caixaEquiv (applyAdds emptyCaixa adds1) (applyAdds emptyCaixa adds2) :=
    applyAdds_equiv adds1 adds2 h emptyCaixa emptyCaixa (fun _ _ => ⟨rfl, rfl, rfl⟩)
  have hA : anchorLoop ⟨L, C, applyAdds emptyCaixa adds1⟩ =
      anchorLoop ⟨L, C, applyAdds emptyCaixa adds2⟩ :=
    equiv_anchor L C _ _ hEq
  have hci : confInicialMaxima ⟨L, C, applyAdds emptyCaixa adds1⟩ =
      confInicialMaxima ⟨L, C, applyAdds emptyCaixa adds2⟩ := by
    unfold confInicialMaxima
    rw [hA]
  have hmv : maxValorCaixa ⟨L, C, applyAdds emptyCaixa adds1⟩ =
      maxValorCaixa ⟨L, C, applyAdds emptyCaixa adds2⟩ := by
    unfold maxValorCaixa
    rw [hA]
  have hsol : solucaoList ⟨L, C, applyAdds emptyCaixa adds1⟩
      (confInicialMaxima ⟨L, C, applyAdds emptyCaixa adds1⟩) =
      solucaoList ⟨L, C, applyAdds emptyCaixa adds2⟩
      (confInicialMaxima ⟨L, C, applyAdds emptyCaixa adds2⟩) := by
    rw [hci]
    exact equiv_solucao L C _ _ hEq _
  constructor
  · rw [Resolve_eq, Resolve_eq]
    simp only [GetValoresSolucao, initState]
    rw [hsol, hmv]
  · rw [Resolve_eq, Resolve_eq]
    simp only [initState]
    rw [hsol]

/-- Witness for C9 at the concrete addition lists `addsA` and `addsB`, which
differ only in their `e` and `b` arguments, on a 2x2 grid. -/
theorem c9_witness : List.Forall₂
      (fun t1 t2 : Nat × Nat × Int × Nat × Nat × Nat × Nat =>
        t1.1 = t2.1 ∧ t1.2.1 = t2.2.1 ∧ t1.2.2.1 = t2.2.2.1 ∧
        t1.2.2.2.1 = t2.2.2.2.1 ∧ t1.2.2.2.2.1 = t2.2.2.2.2.1) addsA addsB ∧
    (GetValoresSolucao (Resolve (initState ⟨2, 2, applyAdds emptyCaixa addsA⟩)) =
      GetValoresSolucao (Resolve (initState ⟨2, 2, applyAdds emptyCaixa addsB⟩)) ∧
    (Resolve (initState ⟨2, 2, applyAdds emptyCaixa addsA⟩)).cristais_solucao =
      (Resolve (initState ⟨2, 2, applyAdds emptyCaixa addsB⟩)).cristais_solucao) :=
  ⟨List.Forall₂.cons (by decide)
      (List.Forall₂.cons (by decide) List.Forall₂.nil),
    c9_independencia_esquerda_baixo 2 2 addsA addsB
      (List.Forall₂.cons (by decide)
        (List.Forall₂.cons (by decide) List.Forall₂.nil))⟩

end CifraCarmesim
